/-
Verification of the resilience and evaluation layer of the spot-toolkit
repository: CircuitBreaker, withRetry / handleProviderError,
MetricsCollector, EnhancedProviderManager.generateText, the style linter's
readability computation, and the TemplateManager's A/B experiment logic.

Each definition is a shallow embedding of the corresponding JavaScript
source; machine numbers are modelled as Nat / Int / Rat (exact arithmetic),
fallible code returns Except / Option, and stateful code is explicit state
passing.
-/
import Mathlib

namespace Spot

/-! ## CircuitBreaker (src/src/utils/prompting.js) -/

inductive CBState where
  | closed
  | open_
  | halfOpen
  deriving DecidableEq, Repr

structure CB where
  threshold : Nat
  timeout : Int
  state : CBState
  failures : Nat
  lastFailureTime : Option Int
  nextAttempt : Option Int
  deriving DecidableEq, Repr

/-- The constructor: `state = 'CLOSED'; failures = 0; lastFailureTime = null;
nextAttempt = null` with the given threshold and timeout. -/
def CB.init (threshold : Nat) (timeout : Int) : CB :=
  { threshold := threshold, timeout := timeout, state := .closed,
    failures := 0, lastFailureTime := none, nextAttempt := none }

/-- `onSuccess`: reset the failure counter; a HALF_OPEN breaker closes. -/
def CB.onSuccess (cb : CB) : CB :=
  { cb with failures := 0,
            state := if cb.state = .halfOpen then .closed else cb.state }

/-- `onFailure`: increment the failure counter, stamp the failure time, and
when the counter reaches the threshold go OPEN with
`nextAttempt = now + timeout`. -/
def CB.onFailure (cb : CB) (now : Int) : CB :=
  if cb.threshold ≤ cb.failures + 1 then
    { cb with failures := cb.failures + 1, lastFailureTime := some now,
              state := .open_, nextAttempt := some (now + cb.timeout) }
  else
    { cb with failures := cb.failures + 1, lastFailureTime := some now }

/-- Outcome of `execute`: the operation's value, the fallback's value, a
`Circuit breaker is OPEN` error, or the operation's own error rethrown. -/
inductive ExecErr (ε : Type) where
  | circuitOpen
  | op (e : ε)
  deriving DecidableEq, Repr

/-- The `try { ... } catch { ... }` body of `execute`, reached only after the
OPEN fast-path: invoke the operation, then `onSuccess` / `onFailure`. -/
def CB.executeBody (cb1 : CB) (now : Int) (opr : Except ε α)
    (fallback : Option α) : CB × Except (ExecErr ε) α × Bool :=
  match opr with
  | .ok v => (cb1.onSuccess, .ok v, true)
  | .error e =>
    let cb2 := cb1.onFailure now
    match fallback with
    | some fb => if cb2.state = .open_ then (cb2, .ok fb, true)
                 else (cb2, .error (.op e), true)
    | none => (cb2, .error (.op e), true)

/-- `CircuitBreaker.execute(operation, fallback)`.

`opr` is what the wrapped operation returns when (and only when) it is
invoked, `fallback` the fallback's value when one is supplied, `now` the
current clock. The result is the updated breaker, the call's outcome, and
whether the wrapped operation was invoked. JavaScript's `now < nextAttempt`
compares against `null` as `0`, hence `getD 0`. -/
def CB.execute (cb : CB) (now : Int) (opr : Except ε α) (fallback : Option α) :
    CB × Except (ExecErr ε) α × Bool :=
  if cb.state = .open_ then
    if now < cb.nextAttempt.getD 0 then
      match fallback with
      | some fb => (cb, .ok fb, false)
      | none => (cb, .error .circuitOpen, false)
    else
      CB.executeBody { cb with state := .halfOpen } now opr fallback
  else
    cb.executeBody now opr fallback

/-- Reachability invariant: a breaker that is OPEN or HALF_OPEN has already
accumulated at least `threshold` failures (the counter is only reset by a
success, which also closes a HALF_OPEN breaker). -/
def CB.Inv (cb : CB) : Prop :=
  (cb.state = .open_ ∨ cb.state = .halfOpen) → cb.threshold ≤ cb.failures

instance (cb : CB) : Decidable cb.Inv := by
  unfold CB.Inv; infer_instance

theorem CB.Inv.init (threshold : Nat) (timeout : Int) :
    (CB.init threshold timeout).Inv := by
  intro hs
  rcases hs with h1 | h1 <;> simp [CB.init] at h1

theorem CB.Inv.executeBody (cb : CB) (now : Int) (opr : Except ε α)
    (fallback : Option α) (hno : cb.state ≠ .open_)
    (h : cb.state = .halfOpen → cb.threshold ≤ cb.failures) :
    (cb.executeBody now opr fallback).1.Inv := by
  obtain ⟨th, tmo, st, f, lft, na⟩ := cb
  unfold CB.Inv
  rcases opr with e | v <;> rcases fallback with _ | fb <;>
    rcases st <;>
    simp only [CB.executeBody, CB.onFailure, CB.onSuccess] <;>
    split_ifs <;> simp_all <;> omega

theorem CB.Inv.execute (cb : CB) (now : Int) (opr : Except ε α)
    (fallback : Option α) (h : cb.Inv) :
    (cb.execute now opr fallback).1.Inv := by
  unfold CB.execute
  split_ifs with ho hn
  · rcases fallback with _ | fb <;> simpa using h
  · exact CB.Inv.executeBody _ now opr fallback (by simp)
      (fun _ => h (Or.inl ho))
  · exact CB.Inv.executeBody _ now opr fallback ho (fun hh => h (Or.inr hh))

theorem CB.executeBody_error (cb1 : CB) (now : Int) (e : ε) (fb : Option α) :
    cb1.executeBody now (Except.error e) fb =
      (cb1.onFailure now,
       (match fb with
        | some v => if (cb1.onFailure now).state = .open_ then Except.ok v
                    else Except.error (.op e)
        | none => Except.error (.op e)), true) := by
  cases fb
  · rfl
  · dsimp only [CB.executeBody]
    split_ifs <;> rfl

theorem CB.onFailure_failures (cb : CB) (now : Int) :
    (cb.onFailure now).failures = cb.failures + 1 := by
  unfold CB.onFailure; split_ifs <;> rfl

theorem CB.onFailure_threshold (cb : CB) (now : Int) :
    (cb.onFailure now).threshold = cb.threshold := by
  unfold CB.onFailure; split_ifs <;> rfl

theorem CB.onFailure_state_open_iff (cb : CB) (now : Int)
    (h : cb.state ≠ .open_) :
    (cb.onFailure now).state = .open_ ↔ cb.threshold ≤ cb.failures + 1 := by
  unfold CB.onFailure
  split_ifs with ht <;> simp [ht, h]

theorem CB.onFailure_open_nextAttempt (cb : CB) (now : Int)
    (ht : cb.threshold ≤ cb.failures + 1) :
    (cb.onFailure now).nextAttempt = some (now + cb.timeout) := by
  unfold CB.onFailure; split_ifs <;> simp_all

theorem CB.execute_fst_of_error (cb : CB) (now : Int) (e : ε)
    (fb : Option α) (hno : cb.state ≠ .open_) :
    (cb.execute now (Except.error e) fb).1 = cb.onFailure now := by
  unfold CB.execute
  rw [if_neg hno, CB.executeBody_error]

/-- C1: the CircuitBreaker implements the specified state machine — it
starts CLOSED with zero failures; each operation failure increments the
failure counter, and when the counter reaches the threshold the state
becomes OPEN with `nextAttempt = now + timeout`; while OPEN, a call
strictly before `nextAttempt` never invokes the operation and yields the
fallback's result (or the circuit-open error without a fallback); once
`now ≥ nextAttempt` the next call invokes the operation (via HALF_OPEN);
success there closes the breaker and zeroes the counter; failure there
(from any reachable breaker, `CB.Inv`) reopens it with
`nextAttempt = now + timeout`. -/
theorem circuitBreaker_state_machine_C1 :
    (∀ (th : Nat) (tmo : Int),
       (CB.init th tmo).state = CBState.closed ∧
       (CB.init th tmo).failures = 0) ∧
    (∀ (cb : CB) (now : Int) (e : String) (fb : Option String),
       cb.state ≠ .open_ →
       (cb.execute now (Except.error e) fb).1.failures = cb.failures + 1 ∧
       (cb.threshold ≤ cb.failures + 1 →
         (cb.execute now (Except.error e) fb).1.state = .open_ ∧
         (cb.execute now (Except.error e) fb).1.nextAttempt =
           some (now + cb.timeout))) ∧
    (∀ (cb : CB) (now : Int) (opr : Except String String)
       (fb : Option String),
       cb.state = .open_ → now < cb.nextAttempt.getD 0 →
       (cb.execute now opr fb).2.2 = false ∧
       (∀ v, fb = some v → (cb.execute now opr fb).2.1 = Except.ok v) ∧
       (fb = none →
         (cb.execute now opr fb).2.1 = Except.error ExecErr.circuitOpen)) ∧
    (∀ (cb : CB) (now : Int) (opr : Except String String)
       (fb : Option String),
       cb.state = .open_ → ¬ now < cb.nextAttempt.getD 0 →
       (cb.execute now opr fb).2.2 = true) ∧
    (∀ (cb : CB) (now : Int) (v : String) (fb : Option String),
       (cb.state = .halfOpen ∨
         (cb.state = .open_ ∧ ¬ now < cb.nextAttempt.getD 0)) →
       (cb.execute now (Except.ok (ε := String) v) fb).1.state = .closed ∧
       (cb.execute now (Except.ok (ε := String) v) fb).1.failures = 0) ∧
    (∀ (cb : CB) (now : Int) (e : String) (fb : Option String),
       cb.Inv →
       (cb.state = .halfOpen ∨
         (cb.state = .open_ ∧ ¬ now < cb.nextAttempt.getD 0)) →
       (cb.execute now (Except.error e) fb).1.state = .open_ ∧
       (cb.execute now (Except.error e) fb).1.nextAttempt =
         some (now + cb.timeout)) := by
  refine ⟨?_, ?_, ?_, ?_, ?_, ?_⟩
  · intro th tmo; exact ⟨rfl, rfl⟩
  · intro cb now e fb hno
    rw [CB.execute_fst_of_error cb now e fb hno]
    refine ⟨cb.onFailure_failures now, fun ht => ?_⟩
    exact ⟨(cb.onFailure_state_open_iff now hno).2 ht,
           cb.onFailure_open_nextAttempt now ht⟩
  · intro cb now opr fb ho hn
    unfold CB.execute
    rw [if_pos ho, if_pos hn]
    cases fb <;> simp
  · intro cb now opr fb ho hn
    unfold CB.execute
    rw [if_pos ho, if_neg hn]
    cases opr <;> cases fb <;>
      simp only [CB.executeBody] <;> split_ifs <;> rfl
  · intro cb now v fb hcase
    have hbody : ∀ cb1 : CB,
        (cb1.executeBody now (Except.ok (ε := String) v) fb).1 =
          cb1.onSuccess := fun _ => rfl
    rcases hcase with hh | ⟨ho, hn⟩
    · have hno : cb.state ≠ .open_ := by rw [hh]; intro hcon; cases hcon
      unfold CB.execute
      rw [if_neg hno, hbody]
      unfold CB.onSuccess
      rw [if_pos hh]
      exact ⟨rfl, rfl⟩
    · unfold CB.execute
      rw [if_pos ho, if_neg hn, hbody]
      unfold CB.onSuccess
      exact ⟨by simp, rfl⟩
  · intro cb now e fb hinv hcase
    have key : ∀ cb1 : CB, cb1.state ≠ .open_ →
        cb1.threshold ≤ cb1.failures →
        (cb1.executeBody now (Except.error (α := String) e) fb).1.state =
          .open_ ∧
        (cb1.executeBody now (Except.error (α := String) e) fb).1.nextAttempt
          = some (now + cb1.timeout) := by
      intro cb1 hno1 hth1
      rw [CB.executeBody_error]
      have ht : cb1.threshold ≤ cb1.failures + 1 := le_trans hth1 (by omega)
      exact ⟨(cb1.onFailure_state_open_iff now hno1).2 ht,
             cb1.onFailure_open_nextAttempt now ht⟩
    rcases hcase with hh | ⟨ho, hn⟩
    · have hno : cb.state ≠ .open_ := by rw [hh]; intro hcon; cases hcon
      unfold CB.execute
      rw [if_neg hno]
      exact key cb hno (hinv (Or.inr hh))
    · unfold CB.execute
      rw [if_pos ho, if_neg hn]
      exact key { cb with state := .halfOpen } (by simp) (hinv (Or.inl ho))

/-- Witness for C1 at concrete inputs: a fresh breaker with threshold 2 and
timeout 100 starts CLOSED; from one accumulated failure, a second failure at
time 7 opens it with `nextAttempt = 107`; while OPEN a call at time 8
(before 107) is rejected without invoking the operation; at time 200 the
probe call is invoked and a success closes the breaker. -/
theorem circuitBreaker_state_machine_C1_witness :
    ((CB.init 2 100).state = CBState.closed ∧ (CB.init 2 100).failures = 0) ∧
    ((CB.mk 2 100 .closed 1 none none).execute 7 (Except.error "boom")
        (none : Option String)).1.state = CBState.open_ ∧
    ((CB.mk 2 100 .closed 1 none none).execute 7 (Except.error "boom")
        (none : Option String)).1.nextAttempt = some 107 ∧
    ((CB.mk 2 100 .open_ 2 (some 7) (some 107)).execute 8
        (Except.error (α := String) "x") (some "fb")).2.2 = false ∧
    ((CB.mk 2 100 .open_ 2 (some 7) (some 107)).execute 200
        (Except.ok (ε := String) "ok") (none : Option String)).2.2 = true ∧
    ((CB.mk 2 100 .open_ 2 (some 7) (some 107)).execute 200
        (Except.ok (ε := String) "ok") (none : Option String)).1.state =
      CBState.closed := by
  have h := circuitBreaker_state_machine_C1
  refine ⟨h.1 2 100, ?_, ?_, ?_, ?_, ?_⟩
  · exact ((h.2.1 (CB.mk 2 100 .closed 1 none none) 7 "boom" none
      (by decide)).2 (by decide)).1
  · exact ((h.2.1 (CB.mk 2 100 .closed 1 none none) 7 "boom" none
      (by decide)).2 (by decide)).2
  · exact (h.2.2.1 (CB.mk 2 100 .open_ 2 (some 7) (some 107)) 8
      (Except.error "x") (some "fb") (by decide) (by decide)).1
  · exact h.2.2.2.1 (CB.mk 2 100 .open_ 2 (some 7) (some 107)) 200
      (Except.ok "ok") none (by decide) (by decide)
  · exact (h.2.2.2.2.1 (CB.mk 2 100 .open_ 2 (some 7) (some 107)) 200 "ok"
      none (Or.inr ⟨by decide, by decide⟩)).1

/-- C10 (implicit): when the wrapped operation is actually invoked and
throws, the fallback's result is returned exactly when a fallback was
supplied and recording the failure left the breaker OPEN (the counter
reached the threshold); otherwise — counter still below the threshold, or
no fallback — the operation's error propagates. -/
theorem circuitBreaker_fallback_on_open_C10 :
    ∀ (cb : CB) (now : Int) (e : String) (fb : Option String),
      (cb.execute now (Except.error (α := String) e) fb).2.2 = true →
      ((cb.threshold ≤ cb.failures + 1 → ∀ v, fb = some v →
         (cb.execute now (Except.error (α := String) e) fb).2.1 =
           Except.ok v) ∧
       (cb.failures + 1 < cb.threshold ∨ fb = none →
         (cb.execute now (Except.error (α := String) e) fb).2.1 =
           Except.error (ExecErr.op e))) := by
  intro cb now e fb hinv
  have hcase : ¬ (cb.state = .open_ ∧ now < cb.nextAttempt.getD 0) := by
    intro ⟨ho, hn⟩
    unfold CB.execute at hinv
    rw [if_pos ho, if_pos hn] at hinv
    cases fb <;> simp at hinv
  have hgen : ∀ cb1 : CB, cb1.state ≠ .open_ → cb1.failures = cb.failures →
      cb1.threshold = cb.threshold →
      ((cb.threshold ≤ cb.failures + 1 → ∀ v, fb = some v →
         (cb1.executeBody now (Except.error (α := String) e) fb).2.1 =
           Except.ok v) ∧
      (cb.failures + 1 < cb.threshold ∨ fb = none →
         (cb1.executeBody now (Except.error (α := String) e) fb).2.1 =
           Except.error (ExecErr.op e))) := by
    intro cb1 hno1 hf hth
    rw [CB.executeBody_error]
    constructor
    · intro ht v hv
      have hopen : (cb1.onFailure now).state = .open_ :=
        (cb1.onFailure_state_open_iff now hno1).2 (by omega)
      subst hv
      simp [hopen]
    · intro ht
      rcases ht with ht | ht
      · have hopen : ¬ (cb1.onFailure now).state = .open_ := by
          rw [cb1.onFailure_state_open_iff now hno1]; omega
        cases fb <;> simp [hopen]
      · subst ht
        simp
  by_cases ho : cb.state = .open_
  · have hn : ¬ now < cb.nextAttempt.getD 0 := fun hn => hcase ⟨ho, hn⟩
    unfold CB.execute
    rw [if_pos ho, if_neg hn]
    exact hgen { cb with state := .halfOpen } (by simp) rfl rfl
  · unfold CB.execute
    rw [if_neg ho]
    exact hgen cb ho rfl rfl

/-- Witness for C10: with threshold 2 and one prior failure, a failing call
with a fallback returns the fallback's value; with zero prior failures the
error propagates even though a fallback is present; with no fallback the
error propagates as well. -/
theorem circuitBreaker_fallback_on_open_C10_witness :
    ((CB.mk 2 100 .closed 1 none none).execute 7 (Except.error "boom")
        (some "fb")).2.1 = Except.ok "fb" ∧
    ((CB.mk 2 100 .closed 0 none none).execute 7 (Except.error "boom")
        (some "fb")).2.1 = Except.error (ExecErr.op "boom") ∧
    ((CB.mk 2 100 .closed 1 none none).execute 7 (Except.error "boom")
        (none : Option String)).2.1 = Except.error (ExecErr.op "boom") := by
  refine ⟨?_, ?_, ?_⟩
  · exact (circuitBreaker_fallback_on_open_C10
      (CB.mk 2 100 .closed 1 none none) 7 "boom" (some "fb")
      (by decide)).1 (by decide) "fb" rfl
  · exact (circuitBreaker_fallback_on_open_C10
      (CB.mk 2 100 .closed 0 none none) 7 "boom" (some "fb")
      (by decide)).2 (Or.inl (by decide))
  · exact (circuitBreaker_fallback_on_open_C10
      (CB.mk 2 100 .closed 1 none none) 7 "boom" none
      (by decide)).2 (Or.inr rfl)

/-! ## withRetry and handleProviderError (src/utils/errorHandling.js) -/

/-- Errors thrown by provider code: `RetryableError`, `APIError`, or any
other `Error`. Only `RetryableError` satisfies
`error instanceof RetryableError`. -/
inductive JsError where
  | retryable (msg : String)
  | apiError (msg : String) (status : Option Int)
  | other (msg : String)
  deriving DecidableEq, Repr

/-- `error instanceof RetryableError` -/
def JsError.isRetryableError : JsError → Bool
  | .retryable _ => true
  | _ => false

/-- The raw error inspected by `handleProviderError`: its `name`,
`message`, and (HTTP) `status` when present. -/
structure RawError where
  name : String
  message : String
  status : Option Int
  deriving DecidableEq, Repr

/-- `s.includes(sub)` -/
def strContains (s sub : String) : Bool := decide (sub.data <:+: s.data)

/-- JavaScript `error.status >= 500` — false when `status` is undefined. -/
def statusGe (st : Option Int) (n : Int) : Bool :=
  match st with
  | some s => n ≤ s
  | none => false

/-- `handleProviderError(error, providerName)` always throws; the value
returned here is the error it throws. -/
def handleProviderError (error : RawError) (providerName : String) :
    JsError :=
  if error.name = "TypeError" ∧ strContains error.message "fetch" then
    .retryable ("Network error connecting to " ++ providerName)
  else if statusGe error.status 500 then
    .retryable ("Server error from " ++ providerName ++ ": " ++
      error.message)
  else if error.status = some 429 then
    .retryable ("Rate limit exceeded for " ++ providerName)
  else
    .apiError ("API error from " ++ providerName ++ ": " ++ error.message)
      error.status

/-- Observable events of a `withRetry` run: invoking the operation for a
given attempt number, and suspending for a backoff delay. -/
inductive REv where
  | invoke (attempt : Nat)
  | wait (delayMs : Nat)
  deriving DecidableEq, Repr

def REv.isInvoke : REv → Bool
  | .invoke _ => true
  | _ => false

/-- The backoff delays appearing in a trace, in order. -/
def waitsOf (tr : List REv) : List Nat :=
  tr.filterMap fun ev =>
    match ev with
    | .wait d => some d
    | _ => none

/-- The loop of `withRetry`: `attempt` is the current 1-based attempt
number and `rem` the number of attempts still allowed (current one
included), so `attempt === maxRetries` is `rem = 1`. `op k` is what the
operation does on its k-th invocation. When the loop is never entered
(`maxRetries = 0`) JavaScript returns `undefined`, modelled as
`.ok none`. The trace lists the invocations and backoff suspensions
(`delay = backoffMs * Math.pow(2, attempt - 1)`) in order. -/
def withRetryGo (op : Nat → Except JsError α) (backoffMs : Nat) :
    Nat → Nat → List REv × Except JsError (Option α)
  | _, 0 => ([], .ok none)
  | attempt, rem + 1 =>
    match op attempt with
    | .ok v => ([.invoke attempt], .ok (some v))
    | .error e =>
      if rem = 0 ∨ e.isRetryableError = false then
        ([.invoke attempt], .error e)
      else
        let r := withRetryGo op backoffMs (attempt + 1) rem
        (.invoke attempt :: .wait (backoffMs * 2 ^ (attempt - 1)) :: r.1,
         r.2)

/-- `withRetry(operation, maxRetries, backoffMs)`. -/
def withRetry (op : Nat → Except JsError α) (maxRetries backoffMs : Nat) :
    List REv × Except JsError (Option α) :=
  withRetryGo op backoffMs 1 maxRetries

/-- Trace of `j` failed attempts starting at attempt `a`, each followed by
its backoff wait. -/
def retryFailTrace (backoffMs : Nat) : Nat → Nat → List REv
  | _, 0 => []
  | a, j + 1 =>
    .invoke a :: .wait (backoffMs * 2 ^ (a - 1)) ::
      retryFailTrace backoffMs (a + 1) j

theorem withRetryGo_error_stop (op : Nat → Except JsError α)
    (b a rem : Nat) (e : JsError) (h1 : op a = .error e)
    (h : rem = 0 ∨ e.isRetryableError = false) :
    withRetryGo op b a (rem + 1) = ([.invoke a], .error e) := by
  simp only [withRetryGo, h1]
  rw [if_pos h]

theorem withRetryGo_error_cont (op : Nat → Except JsError α)
    (b a rem : Nat) (e : JsError) (h1 : op a = .error e)
    (h2 : e.isRetryableError = true) (hr : rem ≠ 0) :
    withRetryGo op b a (rem + 1) =
      (.invoke a :: .wait (b * 2 ^ (a - 1)) ::
         (withRetryGo op b (a + 1) rem).1,
       (withRetryGo op b (a + 1) rem).2) := by
  simp only [withRetryGo, h1]
  rw [if_neg (by simp [hr, h2])]

theorem withRetryGo_all_fail (op : Nat → Except JsError α) (b : Nat)
    (e : Nat → JsError) :
    ∀ (j a : Nat),
      (∀ k, a ≤ k → k ≤ a + j →
        op k = .error (e k) ∧ (e k).isRetryableError = true) →
      withRetryGo op b a (j + 1) =
        (retryFailTrace b a j ++ [.invoke (a + j)], .error (e (a + j))) := by
  intro j
  induction j with
  | zero =>
    intro a hop
    obtain ⟨h1, _⟩ := hop a le_rfl (by omega)
    rw [withRetryGo_error_stop op b a 0 (e a) h1 (Or.inl rfl)]
    simp [retryFailTrace]
  | succ j ih =>
    intro a hop
    obtain ⟨h1, h2⟩ := hop a le_rfl (by omega)
    have hrec := ih (a + 1) (fun k hk1 hk2 => hop k (by omega) (by omega))
    rw [withRetryGo_error_cont op b a (j + 1) (e a) h1 h2 (by omega), hrec]
    rw [show a + 1 + j = a + (j + 1) from by omega]
    rfl

theorem withRetryGo_nonretryable (op : Nat → Except JsError α) (b : Nat)
    (e : Nat → JsError) (eend : JsError) :
    ∀ (j a rem : Nat), j < rem →
      (∀ k, a ≤ k → k < a + j →
        op k = .error (e k) ∧ (e k).isRetryableError = true) →
      op (a + j) = .error eend → eend.isRetryableError = false →
      withRetryGo op b a rem =
        (retryFailTrace b a j ++ [.invoke (a + j)], .error eend) := by
  intro j
  induction j with
  | zero =>
    intro a rem hlt hop hend hnr
    obtain ⟨r, rfl⟩ : ∃ r, rem = r + 1 := ⟨rem - 1, by omega⟩
    simp only [Nat.add_zero] at hend
    rw [withRetryGo_error_stop op b a r eend hend (Or.inr hnr)]
    simp [retryFailTrace]
  | succ j ih =>
    intro a rem hlt hop hend hnr
    obtain ⟨r, rfl⟩ : ∃ r, rem = r + 1 := ⟨rem - 1, by omega⟩
    obtain ⟨h1, h2⟩ := hop a le_rfl (by omega)
    have hrec := ih (a + 1) r (by omega)
      (fun k hk1 hk2 => hop k (by omega) (by omega))
      (by rw [show a + 1 + j = a + (j + 1) by omega]; exact hend) hnr
    rw [withRetryGo_error_cont op b a r (e a) h1 h2 (by omega), hrec]
    rw [show a + 1 + j = a + (j + 1) from by omega]
    rfl

theorem retryFailTrace_waits (b : Nat) :
    ∀ (j a : Nat), waitsOf (retryFailTrace b a j) =
      (List.range j).map (fun i => b * 2 ^ (a + i - 1)) := by
  intro j
  induction j with
  | zero => intro a; rfl
  | succ j ih =>
    intro a
    have hstep : waitsOf (retryFailTrace b a (j + 1)) =
        b * 2 ^ (a - 1) :: waitsOf (retryFailTrace b (a + 1) j) := rfl
    rw [hstep, ih (a + 1), List.range_succ_eq_map]
    simp only [List.map_cons, List.map_map]
    congr 1
    apply List.map_congr_left
    intro i _
    simp only [Function.comp_apply]
    exact congrArg (fun t => b * 2 ^ t) (by omega)

theorem retryFailTrace_invokes (b : Nat) :
    ∀ (j a : Nat),
      ((retryFailTrace b a j).filter REv.isInvoke).length = j := by
  intro j
  induction j with
  | zero => intro a; rfl
  | succ j ih =>
    intro a
    simp only [retryFailTrace, List.filter_cons]
    simp [REv.isInvoke, ih (a + 1)]

/-- C2: for every budget `maxAttempts = n ≥ 1` and an operation failing
with a retryable error on every attempt, `withRetry` invokes the operation
exactly `n` times, performs exactly `n - 1` intervening backoff waits, the
wait after attempt `k` lasting `base * 2^(k-1)`, no wait follows the final
attempt (the trace ends with the n-th invocation), and the run fails with
the last-seen error. -/
theorem withRetry_budget_C2 (n b : Nat) (op : Nat → Except JsError String)
    (e : Nat → JsError) (hn : 1 ≤ n)
    (hop : ∀ k, 1 ≤ k → k ≤ n →
      op k = .error (e k) ∧ (e k).isRetryableError = true) :
    (withRetry op n b).2 = .error (e n) ∧
    ((withRetry op n b).1.filter REv.isInvoke).length = n ∧
    waitsOf (withRetry op n b).1 =
      (List.range (n - 1)).map (fun k => b * 2 ^ k) ∧
    (withRetry op n b).1.getLast? = some (.invoke n) := by
  obtain ⟨m, rfl⟩ : ∃ m, n = m + 1 := ⟨n - 1, by omega⟩
  have key := withRetryGo_all_fail op b e m 1
    (fun k hk1 hk2 => hop k hk1 (by omega))
  unfold withRetry
  rw [key]
  refine ⟨by simp [Nat.add_comm], ?_, ?_, ?_⟩
  · rw [List.filter_append, List.length_append, retryFailTrace_invokes]
    simp [REv.isInvoke, Nat.add_comm]
  · rw [show waitsOf (retryFailTrace b 1 m ++ [REv.invoke (1 + m)]) =
        waitsOf (retryFailTrace b 1 m) ++ waitsOf [REv.invoke (1 + m)] from
        List.filterMap_append _ _ _]
    rw [retryFailTrace_waits]
    simp only [Nat.add_succ_sub_one]
    rw [show waitsOf [REv.invoke (1 + m)] = [] from rfl, List.append_nil]
    apply List.map_congr_left
    intro i _
    have hh : 1 + i - 1 = i := by omega
    rw [hh]
  · rw [List.getLast?_concat, Nat.add_comm]

/-- Witness for C2 at `n = 3`, `base = 100`: the operation, failing with a
retryable error on every attempt, is invoked 3 times, the waits are
`[100, 200]`, the trace ends with the third invocation, and the run fails
with the last error. -/
theorem withRetry_budget_C2_witness :
    (withRetry (α := String) (fun _ => .error (JsError.retryable "boom")) 3 100).2 =
      .error (JsError.retryable "boom") ∧
    ((withRetry (α := String) (fun _ => .error (JsError.retryable "boom")) 3 100).1.filter
        REv.isInvoke).length = 3 ∧
    waitsOf (withRetry (α := String) (fun _ =>
        .error (JsError.retryable "boom")) 3 100).1 = [100, 200] ∧
    (withRetry (α := String) (fun _ =>
        .error (JsError.retryable "boom")) 3 100).1.getLast? =
      some (.invoke 3) := by
  have h := withRetry_budget_C2 3 100
    (fun _ => .error (JsError.retryable "boom"))
    (fun _ => JsError.retryable "boom") (by decide)
    (fun k _ _ => ⟨rfl, rfl⟩)
  exact ⟨h.1, h.2.1, by rw [h.2.2.1]; rfl, h.2.2.2⟩

/-- C7: `handleProviderError` classifies exactly the network faults
(`TypeError` mentioning `fetch`), 5xx statuses, and 429 rate limits as
retryable, and `withRetry` retries only retryable failures: a
non-retryable failure first occurring at attempt `j ≤ n` stops the run at
invocation `j` with that error, with no backoff wait after it, regardless
of the remaining budget. -/
theorem retry_only_retryable_C7 :
    (∀ (err : RawError) (p : String),
      (handleProviderError err p).isRetryableError = true ↔
        ((err.name = "TypeError" ∧ "fetch".data <:+: err.message.data) ∨
         (∃ s, err.status = some s ∧ 500 ≤ s) ∨
         err.status = some 429)) ∧
    (∀ (n b j : Nat) (op : Nat → Except JsError String)
       (e : Nat → JsError) (eend : JsError),
      1 ≤ j → j ≤ n →
      (∀ k, 1 ≤ k → k < j →
        op k = .error (e k) ∧ (e k).isRetryableError = true) →
      op j = .error eend → eend.isRetryableError = false →
      (withRetry op n b).2 = .error eend ∧
      ((withRetry op n b).1.filter REv.isInvoke).length = j ∧
      (withRetry op n b).1.getLast? = some (.invoke j)) := by
  constructor
  · intro err p
    unfold handleProviderError
    split_ifs with h1 h2 h3
    · simp only [JsError.isRetryableError, true_iff]
      exact Or.inl ⟨h1.1, of_decide_eq_true h1.2⟩
    · simp only [JsError.isRetryableError, true_iff]
      refine Or.inr (Or.inl ?_)
      unfold statusGe at h2
      cases hst : err.status with
      | none => rw [hst] at h2; cases h2
      | some s =>
        rw [hst] at h2
        exact ⟨s, rfl, of_decide_eq_true h2⟩
    · simp only [JsError.isRetryableError, true_iff]
      exact Or.inr (Or.inr h3)
    · simp only [JsError.isRetryableError, Bool.false_eq_true, false_iff]
      intro hcon
      rcases hcon with ⟨hn, hm⟩ | ⟨s, hs, h5⟩ | h9
      · exact h1 ⟨hn, decide_eq_true hm⟩
      · exact h2 (by unfold statusGe; rw [hs]; exact decide_eq_true h5)
      · exact h3 h9
  · intro n b j op e eend hj1 hjn hop hend hnr
    obtain ⟨m, rfl⟩ : ∃ m, j = m + 1 := ⟨j - 1, by omega⟩
    have key := withRetryGo_nonretryable op b e eend m 1 n (by omega)
      (fun k hk1 hk2 => hop k hk1 (by omega))
      (by rw [Nat.add_comm] at hend; exact hend) hnr
    unfold withRetry
    rw [key]
    refine ⟨rfl, ?_, ?_⟩
    · rw [List.filter_append, List.length_append, retryFailTrace_invokes]
      simp [REv.isInvoke, Nat.add_comm]
    · rw [List.getLast?_concat, Nat.add_comm]

/-- Witness for C7: a `TypeError` mentioning `fetch` is classified
retryable; a plain 400 API error is not; and with budget 5, an operation
whose second attempt fails non-retryably after one retryable failure is
invoked exactly twice, the run failing with that error and the trace
ending at invocation 2. -/
theorem retry_only_retryable_C7_witness :
    ((handleProviderError ⟨"TypeError", "failed to fetch", none⟩
        "p").isRetryableError = true) ∧
    ((handleProviderError ⟨"Error", "bad request", some 400⟩
        "p").isRetryableError = false) ∧
    (withRetry (α := String) (fun k => if k = 1 then .error (JsError.retryable "r1")
        else .error (JsError.other "fatal")) 5 100).2 =
      .error (JsError.other "fatal") ∧
    ((withRetry (α := String) (fun k => if k = 1 then .error (JsError.retryable "r1")
        else .error (JsError.other "fatal")) 5 100).1.filter
        REv.isInvoke).length = 2 ∧
    (withRetry (α := String) (fun k => if k = 1 then .error (JsError.retryable "r1")
        else .error (JsError.other "fatal")) 5 100).1.getLast? =
      some (.invoke 2) := by
  have hc := retry_only_retryable_C7
  have h2 := hc.2 5 100 2
    (fun k => if k = 1 then .error (JsError.retryable "r1")
      else .error (JsError.other "fatal"))
    (fun _ => JsError.retryable "r1") (JsError.other "fatal")
    (by decide) (by decide)
    (fun k hk1 hk2 => by
      have : k = 1 := by omega
      subst this
      exact ⟨rfl, rfl⟩)
    rfl rfl
  refine ⟨?_, ?_, h2.1, h2.2.1, h2.2.2⟩
  · exact ((hc.1 ⟨"TypeError", "failed to fetch", none⟩ "p").2
      (Or.inl ⟨rfl, by decide⟩))
  · by_contra hcon
    have := (hc.1 ⟨"Error", "bad request", some 400⟩ "p").1
      (by revert hcon; cases h : (handleProviderError
        ⟨"Error", "bad request", some 400⟩ "p").isRetryableError <;> simp)
    rcases this with ⟨hn, _⟩ | ⟨s, hs, h5⟩ | h9
    · exact absurd hn (by decide)
    · cases hs; omega
    · cases h9

/-! ## MetricsCollector (src/utils/observability.js) -/

/-- The mutable state of a `MetricsCollector`: per-key counters and per-key
histogram sample arrays, in insertion order (JavaScript `Map`). Keys are the
already-canonicalized metric keys produced by `getMetricKey`. -/
structure MetricsCollector where
  counters : List (String × Int)
  histograms : List (String × List Rat)
  deriving DecidableEq, Repr

/-- `Map` update used by `recordTime`: create the key with `[]` when absent
(new keys go to the end, as in a JavaScript `Map`), then push the duration
onto the key's array. -/
def pushAssoc (l : List (String × List Rat)) (k : String) (d : Rat) :
    List (String × List Rat) :=
  match l with
  | [] => [(k, [d])]
  | (k', v) :: rest =>
    if k' = k then (k', v ++ [d]) :: rest
    else (k', v) :: pushAssoc rest k d

/-- `recordTime(name, durationMs, tags)`: appends the duration to the
(per-key) histogram array. -/
def MetricsCollector.recordTime (m : MetricsCollector) (key : String)
    (durationMs : Rat) : MetricsCollector :=
  { m with histograms := pushAssoc m.histograms key durationMs }

/-- `values.sort((a, b) => a - b)`: the samples in ascending order. -/
def sortAsc (l : List Rat) : List Rat := l.insertionSort (· ≤ ·)

/-- The per-key histogram summary record built by `getSummary`. `min`,
`max` and the percentiles are `sorted[i]` lookups, which are `undefined`
(`none`) out of range; `mean` is `NaN` (`none`) for an empty array. -/
structure HistSummary where
  count : Nat
  min : Option Rat
  max : Option Rat
  mean : Option Rat
  p50 : Option Rat
  p95 : Option Rat
  p99 : Option Rat
  deriving DecidableEq, Repr

/-- `Math.floor(sorted.length * p)`, the index `getSummary` reads. -/
def summaryIndex (n : Nat) (p : Rat) : Nat := (⌊(n : Rat) * p⌋).toNat

/-- The statistics `getSummary` computes for one histogram key:
`count`, `min = sorted[0]`, `max = sorted[sorted.length - 1]`,
`mean = sum / length`, and `p = sorted[Math.floor(sorted.length * p)]`
for p ∈ {0.5, 0.95, 0.99}. -/
def histSummary (values : List Rat) : HistSummary :=
  let sorted := sortAsc values
  { count := values.length,
    min := sorted.head?,
    max := sorted.getLast?,
    mean := if values.length = 0 then none
            else some (values.sum / values.length),
    p50 := sorted.get? (summaryIndex values.length (1/2)),
    p95 := sorted.get? (summaryIndex values.length (19/20)),
    p99 := sorted.get? (summaryIndex values.length (99/100)) }

/-- `getSummary()` and its side effect: `values.sort(...)` sorts each
stored sample array **in place**, so the post-state holds the sorted
arrays. -/
def MetricsCollector.getSummary (m : MetricsCollector) :
    (List (String × HistSummary)) × MetricsCollector :=
  (m.histograms.map (fun kv => (kv.1, histSummary kv.2)),
   { m with histograms := m.histograms.map (fun kv => (kv.1, sortAsc kv.2)) })

/-- The spec's stated percentile rule, for comparison with the source:
sort ascending and take the element at index `ceil(p * count) - 1`,
clamped to be at least 0. -/
def percentileClaimRule (values : List Rat) (p : Rat) : Option Rat :=
  (sortAsc values).get? (max 0 (⌈(values.length : Rat) * p⌉ - 1)).toNat

/-- The floor-rule actually used by `getSummary`, written independently:
sort ascending and take the element at index `floor(p * count)`. -/
def percentileFloorRule (values : List Rat) (p : Rat) : Option Rat :=
  (sortAsc values).get? (⌊(values.length : Rat) * p⌋).toNat

/-- C3 counterexample: on the two-sample histogram `[10, 20]` the summary's
p50 is `20` (index `floor(2 * 0.5) = 1` of the ascending sort), while the
claim's `ceil(p * count) - 1` rule selects index 0, i.e. `10`; the claim's
rule therefore does not describe `getSummary`. -/
theorem metrics_percentile_C3_counterexample :
    (histSummary [10, 20]).p50 = some 20 ∧
    percentileClaimRule [10, 20] (1/2) = some 10 ∧
    (some (20 : Rat)) ≠ (some (10 : Rat)) := by
  refine ⟨?_, ?_, by decide⟩
  · show (sortAsc [10, 20]).get? (summaryIndex 2 (1/2)) = some 20
    have hidx : summaryIndex 2 (1/2) = 1 := by
      unfold summaryIndex
      norm_num
    rw [hidx]
    rfl
  · show (sortAsc [10, 20]).get?
      (max 0 (⌈((2 : Nat) : Rat) * (1/2)⌉ - 1)).toNat = some 10
    have hidx : (max 0 (⌈((2 : Nat) : Rat) * (1/2)⌉ - 1)).toNat = 0 := by
      norm_num
    rw [hidx]
    rfl

theorem sortAsc_perm (l : List Rat) : List.Perm (sortAsc l) l :=
  List.perm_insertionSort (· ≤ ·) l

theorem sortAsc_sorted (l : List Rat) : (sortAsc l).Sorted (· ≤ ·) :=
  List.sorted_insertionSort (· ≤ ·) l

theorem sortAsc_length (l : List Rat) : (sortAsc l).length = l.length :=
  (sortAsc_perm l).length_eq

theorem summaryIndex_lt (n : Nat) (p : Rat) (hn : 1 ≤ n) (_hp0 : 0 ≤ p)
    (hp1 : p < 1) : summaryIndex n p < n := by
  unfold summaryIndex
  have hfloor : ⌊(n : Rat) * p⌋ < n := by
    apply Int.floor_lt.2
    push_cast
    calc (n : Rat) * p < n * 1 := by
          apply mul_lt_mul_of_pos_left hp1
          exact_mod_cast Nat.lt_of_lt_of_le Nat.zero_lt_one hn
      _ = n := mul_one _
  omega

theorem sortAsc_get?_mem (l : List Rat) (i : Nat) (hi : i < l.length) :
    ∃ v, (sortAsc l).get? i = some v ∧ v ∈ l := by
  have hlen : i < (sortAsc l).length := by rw [sortAsc_length]; exact hi
  refine ⟨(sortAsc l).get ⟨i, hlen⟩, List.get?_eq_get hlen, ?_⟩
  exact (sortAsc_perm l).mem_iff.1 (List.get_mem _ _ _)

/-- C3 amended: the summary's percentiles follow the
`floor(p * count)` index rule (not `ceil(p * count) - 1`): for every
nonempty sample list, count is the number of samples, min/max are a least
and a greatest sample, mean is `sum / count`, each of p50/p95/p99 equals
the floor-rule percentile and is a genuine sample, and on
`[10, 20, 30, 40, 50]` the p50 is 30 and the p95 is 50. -/
theorem sorted_min_spec (l : List Rat) (hne : l ≠ [])
    (hs : l.Sorted (· ≤ ·)) :
    ∃ m, l.head? = some m ∧ m ∈ l ∧ ∀ x ∈ l, m ≤ x := by
  cases l with
  | nil => exact absurd rfl hne
  | cons a t =>
    refine ⟨a, rfl, List.mem_cons_self a t, ?_⟩
    intro x hx
    rcases List.mem_cons.1 hx with h1 | h1
    · exact le_of_eq h1.symm
    · exact List.rel_of_sorted_cons hs x h1

theorem sorted_max_spec (l : List Rat) (hne : l ≠ [])
    (hs : l.Sorted (· ≤ ·)) :
    ∃ M, l.getLast? = some M ∧ M ∈ l ∧ ∀ x ∈ l, x ≤ M := by
  induction l with
  | nil => exact absurd rfl hne
  | cons a t ih =>
    cases t with
    | nil => exact ⟨a, rfl, by simp, by simp⟩
    | cons b t2 =>
      obtain ⟨M, hM1, hM2, hM3⟩ := ih (by simp) hs.of_cons
      refine ⟨M, ?_, List.mem_cons_of_mem a hM2, ?_⟩
      · rw [List.getLast?_cons_cons]
        exact hM1
      · intro x hx
        rcases List.mem_cons.1 hx with h1 | h1
        · subst h1
          exact List.rel_of_sorted_cons hs M hM2
        · exact hM3 x h1

/-- C3 amended: the summary's percentiles follow the
`floor(p * count)` index rule (not `ceil(p * count) - 1`): for every
nonempty sample list, count is the number of samples, min/max are a least
and a greatest sample, mean is `sum / count`, each of p50/p95/p99 equals
the floor-rule percentile and is a genuine sample, and on
`[10, 20, 30, 40, 50]` the p50 is 30 and the p95 is 50. -/
theorem metrics_summary_C3_amended (values : List Rat)
    (hne : values ≠ []) :
    (histSummary values).count = values.length ∧
    (∃ m, (histSummary values).min = some m ∧ m ∈ values ∧
      ∀ x ∈ values, m ≤ x) ∧
    (∃ M, (histSummary values).max = some M ∧ M ∈ values ∧
      ∀ x ∈ values, x ≤ M) ∧
    (histSummary values).mean = some (values.sum / values.length) ∧
    ((histSummary values).p50 = percentileFloorRule values (1/2) ∧
      ∃ v, (histSummary values).p50 = some v ∧ v ∈ values) ∧
    ((histSummary values).p95 = percentileFloorRule values (19/20) ∧
      ∃ v, (histSummary values).p95 = some v ∧ v ∈ values) ∧
    ((histSummary values).p99 = percentileFloorRule values (99/100) ∧
      ∃ v, (histSummary values).p99 = some v ∧ v ∈ values) ∧
    ((histSummary [10, 20, 30, 40, 50]).p50 = some 30 ∧
      (histSummary [10, 20, 30, 40, 50]).p95 = some 50) := by
  have hlen : 1 ≤ values.length := by
    cases values with
    | nil => exact absurd rfl hne
    | cons a t => simp
  have hsorted := sortAsc_sorted values
  have hperm := sortAsc_perm values
  have hslen : (sortAsc values).length = values.length := sortAsc_length values
  have hsne : sortAsc values ≠ [] := by
    intro hcon
    rw [hcon] at hslen
    simp at hslen
    omega
  have hpert : ∀ p : Rat, 0 ≤ p → p < 1 →
      ∃ v, (sortAsc values).get? (summaryIndex values.length p) = some v ∧
        v ∈ values := by
    intro p hp0 hp1
    exact sortAsc_get?_mem values _ (summaryIndex_lt values.length p hlen hp0 hp1)
  refine ⟨rfl, ?_, ?_, ?_, ?_, ?_, ?_, ⟨?ex1, ?ex2⟩⟩
  case ex1 =>
    show (sortAsc [10, 20, 30, 40, 50]).get?
      (summaryIndex 5 (1/2)) = some 30
    have hidx : summaryIndex 5 (1/2) = 2 := by
      unfold summaryIndex
      norm_num
      rfl
    rw [hidx]
    rfl
  case ex2 =>
    show (sortAsc [10, 20, 30, 40, 50]).get?
      (summaryIndex 5 (19/20)) = some 50
    have hidx : summaryIndex 5 (19/20) = 4 := by
      unfold summaryIndex
      norm_num
      rfl
    rw [hidx]
    rfl
  · obtain ⟨m, h1, h2, h3⟩ := sorted_min_spec (sortAsc values) hsne hsorted
    exact ⟨m, h1, hperm.mem_iff.1 h2,
      fun x hx => h3 x (hperm.mem_iff.2 hx)⟩
  · obtain ⟨M, h1, h2, h3⟩ := sorted_max_spec (sortAsc values) hsne hsorted
    exact ⟨M, h1, hperm.mem_iff.1 h2,
      fun x hx => h3 x (hperm.mem_iff.2 hx)⟩
  · show (if values.length = 0 then none
      else some (values.sum / values.length)) =
      some (values.sum / values.length)
    rw [if_neg (by omega)]
  · exact ⟨rfl, hpert (1/2) (by norm_num) (by norm_num)⟩
  · exact ⟨rfl, hpert (19/20) (by norm_num) (by norm_num)⟩
  · exact ⟨rfl, hpert (99/100) (by norm_num) (by norm_num)⟩

/-- Witness for C3's amended theorem on the nonempty list `[10, 20]`:
count 2, min 10, max 20, mean 15, and the floor-rule percentile values
p50 = 20, p95 = 20, p99 = 20. -/
theorem metrics_summary_C3_amended_witness :
    (histSummary [10, 20]).count = 2 ∧
    (∃ m, (histSummary [10, 20]).min = some m ∧ m ∈ ([10, 20] : List Rat) ∧
      ∀ x ∈ ([10, 20] : List Rat), m ≤ x) ∧
    (histSummary [10, 20]).p95 = percentileFloorRule [10, 20] (19/20) := by
  have h := metrics_summary_C3_amended [10, 20] (by decide)
  exact ⟨h.1, h.2.1, h.2.2.2.2.2.1.1⟩

theorem pushAssoc_lookup (l : List (String × List Rat)) (k : String)
    (d : Rat) :
    (pushAssoc l k d).lookup k = some (((l.lookup k).getD []) ++ [d]) := by
  induction l with
  | nil => simp [pushAssoc, List.lookup]
  | cons kv rest ih =>
    obtain ⟨k2, v⟩ := kv
    by_cases hk : k2 = k
    · subst hk
      simp [pushAssoc, List.lookup]
    · simp only [pushAssoc, if_neg hk, List.lookup]
      have hbeq : (k == k2) = false := by
        simp [beq_eq_false_iff_ne]
        exact fun hcon => hk hcon.symm
      rw [hbeq]
      simpa using ih

/-- C6: `recordTime` only appends — the per-key sample sequence after a
`recordTime` is the previous sequence with the new duration at the end —
but computing the summary does **not** leave the stored sequences
unchanged: `getSummary` sorts each sample array in place, so after
recording 30, 10, 20 under one key, the stored sequence is the reordered
`[10, 20, 30]`, not `[30, 10, 20]`. -/
theorem metrics_append_only_C6_bug :
    (∀ (m : MetricsCollector) (k : String) (d : Rat),
      (m.recordTime k d).histograms.lookup k =
        some (((m.histograms.lookup k).getD []) ++ [d])) ∧
    ((((MetricsCollector.mk [] []).recordTime "op" 30).recordTime "op"
        10).recordTime "op" 20).histograms.lookup "op" =
      some [30, 10, 20] ∧
    (((((MetricsCollector.mk [] []).recordTime "op" 30).recordTime "op"
        10).recordTime "op" 20).getSummary.2.histograms.lookup "op" =
      some [10, 20, 30]) ∧
    some ([10, 20, 30] : List Rat) ≠ some [30, 10, 20] := by
  refine ⟨?_, by decide, by decide, by decide⟩
  intro m k d
  exact pushAssoc_lookup m.histograms k d

/-! ## EnhancedProviderManager.generateText (src/src/utils/prompting.js) -/

/-- The terminal errors `generateText` can throw:
`No provider specified and no fallback chain configured`, or
`All providers failed. Last error: ...` carrying an underlying error
message. -/
inductive GenErr where
  | noProvider
  | allFailed (lastErrorMsg : String)
  deriving DecidableEq, Repr

/-- The `for (const fallbackProvider of this.fallbackChain.slice(1))` loop:
return the first fallback success, swallowing every fallback error. -/
def tryChain (try_ : String → Except String String) :
    List String → Option String
  | [] => none
  | p :: rest =>
    match try_ p with
    | .ok v => some v
    | .error _ => tryChain try_ rest

/-- `EnhancedProviderManager.generateText(prompt, options)`, with
`try_ name` standing for what `tryProvider(name, prompt, options)` does
(through the breaker and retry layers). The preferred provider is
`options.provider || fallbackChain[0]`; on its failure the chain's tail is
tried in order, and when everything failed the thrown error carries
`error.message` of the **preferred** provider's failure. -/
def generateText (try_ : String → Except String String)
    (fallbackChain : List String) (optProvider : Option String) :
    Except GenErr String :=
  match (match optProvider with
         | some p => some p
         | none => fallbackChain.head?) with
  | none => .error .noProvider
  | some preferred =>
    match try_ preferred with
    | .ok v => .ok v
    | .error e0 =>
      match tryChain try_ (fallbackChain.drop 1) with
      | some v => .ok v
      | none => .error (.allFailed e0)

theorem generateText_error_carried
    (try_ : String → Except String String) (chain : List String)
    (p e0 : String) (h1 : try_ p = .error e0)
    (h2 : ∀ q ∈ chain.drop 1, ∃ eq, try_ q = .error eq) :
    generateText try_ chain (some p) = .error (.allFailed e0) := by
  have hchain : ∀ l, (∀ q ∈ l, ∃ eq, try_ q = .error eq) →
      tryChain try_ l = none := by
    intro l
    induction l with
    | nil => intro _; rfl
    | cons q rest ih =>
      intro hall
      obtain ⟨eq0, heq⟩ := hall q (List.mem_cons_self q rest)
      simp only [tryChain, heq]
      exact ih (fun r hr => hall r (List.mem_cons_of_mem q hr))
  show (match try_ p with
    | .ok v => .ok v
    | .error e0 =>
      match tryChain try_ (chain.drop 1) with
      | some v => .ok v
      | none => .error (.allFailed e0)) = Except.error (GenErr.allFailed e0)
  rw [h1, hchain (chain.drop 1) h2]

/-- The two provider behaviours used to exercise `generateText`: both of
"A" and "B" fail (with different messages). -/
def tryAllFail : String → Except String String := fun p =>
  if p = "A" then .error "errA" else .error "errB"

/-- "A" fails and "B" succeeds. -/
def tryRecover : String → Except String String := fun p =>
  if p = "A" then .error "errA" else .ok "vB"

/-- C4: when the preferred backend and every remaining chain entry fail,
`generateText` does fail with a single terminal all-providers-failed
error, and intermediate failures are recovered by moving down the chain —
but the terminal error carries the **preferred** (first) provider's
underlying error, not the last one: with chain `["A", "B"]`, "A" failing
with `errA` and "B" with `errB`, the thrown error embeds `errA`. -/
theorem generateText_all_failed_C4_bug :
    generateText tryAllFail ["A", "B"] none =
      .error (.allFailed "errA") ∧
    tryAllFail "A" = .error "errA" ∧
    tryAllFail "B" = .error "errB" ∧
    ("errA" : String) ≠ "errB" ∧
    generateText tryRecover ["A", "B"] none = .ok "vB" := by
  refine ⟨rfl, rfl, rfl, by decide, rfl⟩

/-! ## Style linter readability (src/src/lint/styleLinter.js) -/

/-- ASCII fragment of JavaScript `toLowerCase()`. -/
def jsToLower (c : Char) : Char :=
  if 65 ≤ c.toNat ∧ c.toNat ≤ 90 then Char.ofNat (c.toNat + 32) else c

/-- `[aeiouy]` -/
def isVowelY (c : Char) : Bool :=
  c == 'a' || c == 'e' || c == 'i' || c == 'o' || c == 'u' || c == 'y'

/-- `[.!?]` -/
def isSentenceChar (c : Char) : Bool := c == '.' || c == '!' || c == '?'

/-- `\\w`, i.e. `[A-Za-z0-9_]` -/
def isWordChar (c : Char) : Bool :=
  ('a' ≤ c && c ≤ 'z') || ('A' ≤ c && c ≤ 'Z') || ('0' ≤ c && c ≤ '9') ||
    c == '_'

/-- `[a-z]` -/
def isLowerAlpha (c : Char) : Bool := 'a' ≤ c && c ≤ 'z'

/-- `[^laeiouy]` (within a lowercase-alphabetic token). -/
def notLVowel (c : Char) : Bool :=
  !(c == 'l' || c == 'a' || c == 'e' || c == 'i' || c == 'o' || c == 'u' ||
    c == 'y')

/-- The maximal runs of characters satisfying `p`, in order: the token
list produced by a global regex match such as `/[.!?]+/g`, `/\\b\\w+\\b/g` or
`/[a-z]+/g`. `cur` is the reversed run being accumulated. -/
def tokensAux (p : Char → Bool) : List Char → List Char → List (List Char)
  | cur, [] => if cur = [] then [] else [cur.reverse]
  | cur, c :: rest =>
    if p c then tokensAux p (c :: cur) rest
    else if cur = [] then tokensAux p [] rest
    else cur.reverse :: tokensAux p [] rest

def tokensOf (p : Char → Bool) (l : List Char) : List (List Char) :=
  tokensAux p [] l

/-- `w.replace(/(?:[^laeiouy]es|ed|[^laeiouy]e)$/, '')`: drop a trailing
(non-l-non-vowel)+`es`, or `ed`, or (non-l-non-vowel)+`e`; the matched
consonant is removed together with the `e`/`es`. -/
def stripSuffix (w : List Char) : List Char :=
  match w.reverse with
  | 's' :: 'e' :: c :: rest =>
    if notLVowel c then rest.reverse else w
  | 'd' :: 'e' :: rest => rest.reverse
  | 'e' :: c :: rest =>
    if notLVowel c then rest.reverse else w
  | _ => w

/-- `syl.replace(/^y/, '')` -/
def stripLeadY (w : List Char) : List Char :=
  match w with
  | 'y' :: rest => rest
  | _ => w

/-- The number of matches of `/[aeiouy]{1,2}/g`: a greedy scan taking one
or two consecutive vowels per match. -/
def vowelChunks : List Char → Nat
  | [] => 0
  | [c] => if isVowelY c then 1 else 0
  | c :: d :: rest =>
    if isVowelY c then
      if isVowelY d then 1 + vowelChunks rest
      else 1 + vowelChunks (d :: rest)
    else vowelChunks (d :: rest)

/-- `countSyllables(text)`: per lowercase-alphabetic token, strip the
suffix, strip a leading `y`, count the vowel chunks, defaulting to 1 when
there is no match. -/
def countSyllables (text : List Char) : Nat :=
  ((tokensOf isLowerAlpha (text.map jsToLower)).map (fun w =>
    let syl := stripLeadY (stripSuffix w)
    let m := vowelChunks syl
    if m = 0 then 1 else m)).sum

/-- `Math.max(1, (text.match(/[.!?]+/g) || []).length)` -/
def sentenceCount (text : List Char) : Nat :=
  max 1 (tokensOf isSentenceChar text).length

/-- `Math.max(1, (text.match(/\\b\\w+\\b/g) || []).length)` -/
def wordCount (text : List Char) : Nat :=
  max 1 (tokensOf isWordChar text).length

/-- `Math.round` -/
def jsRound (q : Rat) : Int := ⌊q + 1/2⌋

/-- `0.39 * (words / sentences) + 11.8 * (syllables / words) - 15.59` -/
def rawGrade (sentences words syllables : Nat) : Rat :=
  39/100 * ((words : Rat) / sentences) +
    59/5 * ((syllables : Rat) / words) - 1559/100

/-- `fleschKincaidGrade(text)`: the raw grade rounded to one decimal,
floored at 0. -/
def fleschKincaidGrade (text : List Char) : Rat :=
  max 0 ((jsRound (rawGrade (sentenceCount text) (wordCount text)
    (countSyllables text) * 10) : Rat) / 10)

/-- Modelled from the claim's wording of the suffix rule, for comparison:
strip a plain trailing silent `e` / `ed` / `es` (the preceding consonant
kept). -/
def stripSuffixClaimRule (w : List Char) : List Char :=
  match w.reverse with
  | 's' :: 'e' :: rest => rest.reverse
  | 'd' :: 'e' :: rest => rest.reverse
  | 'e' :: rest => rest.reverse
  | _ => w

/-- Modelled from the claim's wording of the syllable rule, for
comparison: per token, strip the suffix, strip a leading `y`, then count
**maximal runs** of vowels (not 1-2-vowel chunks), defaulting to 1. -/
def countSyllablesClaimRule (text : List Char) : Nat :=
  ((tokensOf isLowerAlpha (text.map jsToLower)).map (fun w =>
    let syl := stripLeadY (stripSuffixClaimRule w)
    let m := (tokensOf isVowelY syl).length
    if m = 0 then 1 else m)).sum

/-- The claim's reading-grade computation, for comparison: identical to
the source except for the syllable rule. -/
def fleschKincaidGradeClaimRule (text : List Char) : Rat :=
  max 0 ((jsRound (rawGrade (sentenceCount text) (wordCount text)
    (countSyllablesClaimRule text) * 10) : Rat) / 10)

/-- C5 counterexample: on the text `beau` the source counts 2 syllables
(greedy `[aeiouy]{1,2}` chunks of the run `eau`) and reports grade 8.4,
while the claim's maximal-vowel-run rule counts 1 syllable and reports
grade 0; the claim's description of `countSyllables` does not match the
code. -/
theorem styleLinter_grade_C5_counterexample :
    fleschKincaidGrade "beau".data = 42/5 ∧
    fleschKincaidGradeClaimRule "beau".data = 0 ∧
    (42/5 : Rat) ≠ 0 := by
  have hs : sentenceCount "beau".data = 1 := rfl
  have hw : wordCount "beau".data = 1 := rfl
  have hy : countSyllables "beau".data = 2 := rfl
  have hy2 : countSyllablesClaimRule "beau".data = 1 := rfl
  refine ⟨?_, ?_, by norm_num⟩
  · unfold fleschKincaidGrade
    rw [hs, hw, hy]
    have h1 : rawGrade 1 1 2 * 10 = 84 := by
      unfold rawGrade
      norm_num
    rw [h1]
    have h2 : jsRound 84 = 84 := by
      unfold jsRound
      norm_num
    rw [h2]
    rw [max_eq_right (by norm_num : (0 : Rat) ≤ ((84 : Int) : Rat) / 10)]
    norm_num
  · unfold fleschKincaidGradeClaimRule
    rw [hs, hw, hy2]
    have h1 : rawGrade 1 1 1 * 10 = -34 := by
      unfold rawGrade
      norm_num
    rw [h1]
    have h2 : jsRound (-34) = -34 := by
      unfold jsRound
      norm_num
    rw [h2]
    rw [max_eq_left (by norm_num : (((-34 : Int) : Rat) / 10) ≤ 0)]

/-- Sum of `⌈L/2⌉` over the maximal vowel runs of the list (the run at
the head taken with `takeWhile` / `dropWhile`). -/
def runsCeilHalf : List Char → Nat
  | [] => 0
  | c :: rest =>
    if isVowelY c then
      (((c :: rest).takeWhile isVowelY).length + 1) / 2 +
        runsCeilHalf (rest.dropWhile isVowelY)
    else runsCeilHalf rest
termination_by l => l.length
decreasing_by
  · simp only [List.length_cons]
    have := ((List.dropWhile_suffix (l := rest) isVowelY).sublist).length_le
    omega
  · simp only [List.length_cons]
    omega

theorem runsCeilHalf_decomp (t : List Char) :
    runsCeilHalf t =
      ((t.takeWhile isVowelY).length + 1) / 2 +
        runsCeilHalf (t.dropWhile isVowelY) := by
  cases t with
  | nil =>
    rw [runsCeilHalf]
    simp [runsCeilHalf]
  | cons c t2 =>
    by_cases hc : isVowelY c
    · rw [runsCeilHalf, if_pos hc, List.dropWhile_cons_of_pos hc]
    · rw [runsCeilHalf, if_neg hc, List.takeWhile_cons_of_neg hc,
        List.dropWhile_cons_of_neg hc]
      rw [runsCeilHalf, if_neg hc]
      simp

/-- C5 amended (the syllable rule corrected to match the code): the grade
is floored at 0 for every input (including the empty string), and the
per-token chunk count of `/[aeiouy]{1,2}/g` equals the sum of `⌈L/2⌉`
over the maximal vowel runs; on `beau` the grade is 8.4. -/
theorem styleLinter_grade_C5_amended :
    (∀ text : List Char, 0 ≤ fleschKincaidGrade text) ∧
    fleschKincaidGrade "".data = 0 ∧
    (∀ l : List Char, vowelChunks l = runsCeilHalf l) ∧
    fleschKincaidGrade "beau".data = 42/5 := by
  have hruns : ∀ (n : Nat) (l : List Char), l.length ≤ n →
      vowelChunks l = runsCeilHalf l := by
    intro n
    induction n with
    | zero =>
      intro l hl
      have : l = [] := List.length_eq_zero.1 (by omega)
      subst this
      rw [runsCeilHalf]
      rfl
    | succ n ih =>
      intro l hl
      match l with
      | [] =>
        rw [runsCeilHalf]
        rfl
      | [c] =>
        by_cases hc : isVowelY c
        · show (if isVowelY c then 1 else 0) = runsCeilHalf [c]
          rw [if_pos hc, runsCeilHalf, if_pos hc,
            List.takeWhile_cons_of_pos hc]
          simp [runsCeilHalf]
        · show (if isVowelY c then 1 else 0) = runsCeilHalf [c]
          rw [if_neg hc, runsCeilHalf, if_neg hc, runsCeilHalf]
      | c :: d :: rest =>
        simp only [List.length_cons] at hl
        by_cases hc : isVowelY c
        · by_cases hd : isVowelY d
          · show (if isVowelY c then
                if isVowelY d then 1 + vowelChunks rest
                else 1 + vowelChunks (d :: rest)
              else vowelChunks (d :: rest)) = _
            rw [if_pos hc, if_pos hd]
            rw [runsCeilHalf, if_pos hc, List.takeWhile_cons_of_pos hc,
              List.takeWhile_cons_of_pos hd, List.dropWhile_cons_of_pos hd]
            have hrec := ih rest (by omega)
            rw [hrec, runsCeilHalf_decomp rest]
            simp only [List.length_cons]
            omega
          · show (if isVowelY c then
                if isVowelY d then 1 + vowelChunks rest
                else 1 + vowelChunks (d :: rest)
              else vowelChunks (d :: rest)) = _
            rw [if_pos hc, if_neg hd]
            rw [runsCeilHalf, if_pos hc, List.takeWhile_cons_of_pos hc,
              List.takeWhile_cons_of_neg hd, List.dropWhile_cons_of_neg hd]
            have hrec := ih (d :: rest) (by simp; omega)
            rw [hrec]
            simp
        · show (if isVowelY c then
              if isVowelY d then 1 + vowelChunks rest
              else 1 + vowelChunks (d :: rest)
            else vowelChunks (d :: rest)) = _
          rw [if_neg hc]
          rw [runsCeilHalf, if_neg hc]
          exact ih (d :: rest) (by simp; omega)
  refine ⟨?_, ?_, fun l => hruns l.length l le_rfl, ?_⟩
  · intro text
    unfold fleschKincaidGrade
    exact le_max_left 0 _
  · have hs : sentenceCount "".data = 1 := rfl
    have hw : wordCount "".data = 1 := rfl
    have hy : countSyllables "".data = 0 := rfl
    unfold fleschKincaidGrade
    rw [hs, hw, hy]
    have h1 : rawGrade 1 1 0 * 10 = -152 := by
      unfold rawGrade
      norm_num
    rw [h1]
    have h2 : jsRound (-152) = -152 := by
      unfold jsRound
      norm_num
    rw [h2]
    rw [max_eq_left (by norm_num : (((-152 : Int) : Rat) / 10) ≤ 0)]
  · have hs : sentenceCount "beau".data = 1 := rfl
    have hw : wordCount "beau".data = 1 := rfl
    have hy : countSyllables "beau".data = 2 := rfl
    unfold fleschKincaidGrade
    rw [hs, hw, hy]
    have h1 : rawGrade 1 1 2 * 10 = 84 := by
      unfold rawGrade
      norm_num
    rw [h1]
    have h2 : jsRound 84 = 84 := by
      unfold jsRound
      norm_num
    rw [h2]
    rw [max_eq_right (by norm_num : (0 : Rat) ≤ ((84 : Int) : Rat) / 10)]
    norm_num

/-! ## TemplateManager A/B experiments (src/src/utils/templateManager.js) -/

/-- A registered experiment: `{templates, trafficSplit, results, startTime}`.
`trafficSplit` keeps declaration order (`Object.entries`); `results` is the
per-variant result-list map, opaque result entries modelled by their
latency numbers. -/
structure Experiment where
  templates : List String
  trafficSplit : List (String × Rat)
  results : List (String × List Rat)
  startTime : Int
  deriving DecidableEq, Repr

structure TemplateManager where
  experiments : List (String × Experiment)
  deriving DecidableEq, Repr

/-- JavaScript `Map.set`: replace in place, or append a new key. -/
def setAssoc {β : Type} : List (String × β) → String → β → List (String × β)
  | [], k, v => [(k, v)]
  | (k2, v2) :: rest, k, v =>
    if k2 = k then (k2, v) :: rest else (k2, v2) :: setAssoc rest k v

/-- `startExperiment(experimentId, templates, trafficSplit)` at clock
`now`: throws the invalid-weights `ValidationError` when
`Math.abs(totalTraffic - 1.0) > 0.001`, otherwise registers
`{templates, trafficSplit, results: new Map(), startTime: now}`. -/
def startExperiment (tm : TemplateManager) (experimentId : String)
    (templates : List String) (trafficSplit : List (String × Rat))
    (now : Int) : Except String TemplateManager :=
  if 1/1000 < |(trafficSplit.map Prod.snd).sum - 1| then
    .error "Traffic split must sum to 1.0"
  else
    .ok ⟨setAssoc tm.experiments experimentId
      ⟨templates, trafficSplit, [], now⟩⟩

theorem lookup_setAssoc {β : Type} (l : List (String × β)) (k : String)
    (v : β) : (setAssoc l k v).lookup k = some v := by
  induction l with
  | nil => simp [setAssoc, List.lookup]
  | cons kv rest ih =>
    obtain ⟨k2, v2⟩ := kv
    by_cases hk : k2 = k
    · subst hk
      simp [setAssoc, List.lookup]
    · simp only [setAssoc, if_neg hk, List.lookup]
      have hbeq : (k == k2) = false := by
        simp [beq_eq_false_iff_ne]
        exact fun hcon => hk hcon.symm
      rw [hbeq]
      exact ih

/-- C8: `startExperiment` raises the invalid-weights error **iff** the
weights sum differs from 1.0 by more than 0.001; when it does not raise,
the experiment is registered under its id with the given templates, the
given traffic split, an empty results map, and the creation timestamp. -/
theorem startExperiment_weights_C8 (tm : TemplateManager) (id : String)
    (templates : List String) (split : List (String × Rat)) (now : Int) :
    ((∃ msg, startExperiment tm id templates split now =
        .error msg) ↔ 1/1000 < |(split.map Prod.snd).sum - 1|) ∧
    (∀ tm2, startExperiment tm id templates split now = .ok tm2 →
      tm2.experiments.lookup id = some ⟨templates, split, [], now⟩) := by
  unfold startExperiment
  by_cases hcond : 1/1000 < |(split.map Prod.snd).sum - 1|
  · rw [if_pos hcond]
    refine ⟨?_, ?_⟩
    · exact ⟨fun _ => hcond,
        fun _ => ⟨"Traffic split must sum to 1.0", rfl⟩⟩
    · intro tm2 hcon
      cases hcon
  · rw [if_neg hcond]
    refine ⟨?_, ?_⟩
    · constructor
      · rintro ⟨msg, hcon⟩
        cases hcon
      · intro h
        exact absurd h hcond
    · intro tm2 heq
      injection heq with heq
      subst heq
      exact lookup_setAssoc tm.experiments id _

/-- Witness for C8: weights `0.6 + 0.6` (off by 0.2) are rejected, and
with weights `0.5 + 0.5` the experiment is registered with the given
templates, split, empty results and timestamp 7. -/
theorem startExperiment_weights_C8_witness :
    (∃ msg, startExperiment ⟨[]⟩ "exp" ["a"] [("a", 3/5), ("b", 3/5)] 5 =
      .error msg) ∧
    (TemplateManager.mk [("exp",
        ⟨["a", "b"], [("a", 1/2), ("b", 1/2)], [], 7⟩)]).experiments.lookup
      "exp" = some ⟨["a", "b"], [("a", 1/2), ("b", 1/2)], [], 7⟩ := by
  constructor
  · refine (startExperiment_weights_C8 ⟨[]⟩ "exp" ["a"]
      [("a", 3/5), ("b", 3/5)] 5).1.2 ?_
    rw [show (List.map Prod.snd [("a", (3 : Rat)/5), ("b", 3/5)]).sum - 1 =
      1/5 by simp; norm_num]
    rw [abs_of_pos (by norm_num : (0 : Rat) < 1/5)]
    norm_num
  · refine (startExperiment_weights_C8 ⟨[]⟩ "exp" ["a", "b"]
      [("a", 1/2), ("b", 1/2)] 7).2 _ ?_
    unfold startExperiment
    rw [if_neg (by norm_num)]
    rfl

/-- `hashUserId(userId)`: the first 8 hex digits of the md5 digest, as an
integer, divided by `0xffffffff`. The md5 digest comes from Node's
`crypto` module (external to this repository), so the 32-bit prefix is
abstracted as a function `md5pre` into `Fin (2^32)`. -/
def hashUserId (md5pre : String → Fin (2 ^ 32)) (userId : String) : Rat :=
  ((md5pre userId : Nat) : Rat) / 4294967295

/-- The `for (const [templateId, weight] of Object.entries(trafficSplit))`
loop: accumulate the weights in declaration order and return the first
variant with `hash <= cumulative`. -/
def walkSplit (hash : Rat) : Rat → List (String × Rat) → Option String
  | _, [] => none
  | cumulative, (templateId, weight) :: rest =>
    if hash ≤ cumulative + weight then some templateId
    else walkSplit hash (cumulative + weight) rest

/-- `getTemplateForExperiment(experimentId, userId)` with a (non-null)
user id: throw for an unknown experiment, otherwise hash the user id,
walk the cumulative weights, and fall back to the first declared variant
(`Object.keys(trafficSplit)[0]`, `undefined` when the split is empty). -/
def getTemplateForExperiment (tm : TemplateManager)
    (md5pre : String → Fin (2 ^ 32)) (experimentId userId : String) :
    Except String (Option String) :=
  match tm.experiments.lookup experimentId with
  | none => .error ("Unknown experiment: " ++ experimentId)
  | some exp =>
    match walkSplit (hashUserId md5pre userId) 0 exp.trafficSplit with
    | some t => .ok (some t)
    | none => .ok ((exp.trafficSplit.map Prod.fst).head?)

/-- Cumulative weight of the first `i + 1` declared variants. -/
def cumAt (split : List (String × Rat)) (i : Nat) : Rat :=
  ((split.take (i + 1)).map Prod.snd).sum

theorem cumAt_cons_zero (name : String) (w : Rat)
    (rest : List (String × Rat)) : cumAt ((name, w) :: rest) 0 = w := by
  simp [cumAt]

theorem cumAt_cons_succ (name : String) (w : Rat)
    (rest : List (String × Rat)) (i : Nat) :
    cumAt ((name, w) :: rest) (i + 1) = w + cumAt rest i := by
  simp [cumAt, List.take_succ_cons]

theorem walkSplit_some_iff (hash : Rat) :
    ∀ (split : List (String × Rat)) (acc : Rat) (t : String),
      walkSplit hash acc split = some t ↔
        ∃ i, ∃ hi : i < split.length,
          (split.get ⟨i, hi⟩).1 = t ∧ hash ≤ acc + cumAt split i ∧
          ∀ j, j < i → acc + cumAt split j < hash := by
  intro split
  induction split with
  | nil =>
    intro acc t
    simp [walkSplit]
  | cons p rest ih =>
    obtain ⟨name, w⟩ := p
    intro acc t
    rw [walkSplit]
    by_cases hle : hash ≤ acc + w
    · rw [if_pos hle]
      constructor
      · intro heq
        injection heq with heq
        refine ⟨0, by simp, by simpa using heq, ?_, fun j hj => by omega⟩
        rw [cumAt_cons_zero]
        exact hle
      · rintro ⟨i, hi, hname, hle2, hprev⟩
        cases i with
        | zero =>
          simp at hname
          rw [hname]
        | succ j =>
          exfalso
          have hw := hprev 0 (by omega)
          rw [cumAt_cons_zero] at hw
          exact absurd hle (not_le.2 hw)
    · rw [if_neg hle]
      rw [ih (acc + w) t]
      constructor
      · rintro ⟨i, hi, hname, hle2, hprev⟩
        refine ⟨i + 1, by simpa using Nat.succ_lt_succ hi, by simpa using
          hname, ?_, ?_⟩
        · rw [cumAt_cons_succ]
          linarith
        · intro j hj
          cases j with
          | zero =>
            rw [cumAt_cons_zero]
            exact not_le.1 hle
          | succ j2 =>
            rw [cumAt_cons_succ]
            have := hprev j2 (by omega)
            linarith
      · rintro ⟨i, hi, hname, hle2, hprev⟩
        cases i with
        | zero =>
          exfalso
          rw [cumAt_cons_zero] at hle2
          exact hle hle2
        | succ j =>
          have hj : j < rest.length := by simpa using hi
          refine ⟨j, hj, by simpa using hname, ?_, ?_⟩
          · rw [cumAt_cons_succ] at hle2
            linarith
          · intro j2 hj2
            have := hprev (j2 + 1) (by omega)
            rw [cumAt_cons_succ] at this
            linarith

/-- C9: the experiment assignment is deterministic — it is a pure
function of the manager state, the (deterministic) md5 prefix, the
experiment id and the subject key — the hash lands in `[0, 1]`, the walk
over the cumulative weights in declaration order selects exactly the
first variant whose cumulative sum meets or exceeds the hashed value, and
when no variant matched the first declared variant is returned. -/
theorem experiment_assignment_C9 :
    (∀ (tm : TemplateManager) (md5pre : String → Fin (2 ^ 32))
       (id uid : String),
      getTemplateForExperiment tm md5pre id uid =
        getTemplateForExperiment tm md5pre id uid) ∧
    (∀ (md5pre : String → Fin (2 ^ 32)) (uid : String),
      0 ≤ hashUserId md5pre uid ∧ hashUserId md5pre uid ≤ 1) ∧
    (∀ (hash : Rat) (split : List (String × Rat)) (t : String),
      walkSplit hash 0 split = some t ↔
        ∃ i, ∃ hi : i < split.length,
          (split.get ⟨i, hi⟩).1 = t ∧ hash ≤ cumAt split i ∧
          ∀ j, j < i → cumAt split j < hash) ∧
    (∀ (tm : TemplateManager) (md5pre : String → Fin (2 ^ 32))
       (id uid : String) (exp : Experiment),
      tm.experiments.lookup id = some exp →
      (∀ t, walkSplit (hashUserId md5pre uid) 0 exp.trafficSplit =
          some t →
        getTemplateForExperiment tm md5pre id uid = .ok (some t)) ∧
      (walkSplit (hashUserId md5pre uid) 0 exp.trafficSplit = none →
        getTemplateForExperiment tm md5pre id uid =
          .ok ((exp.trafficSplit.map Prod.fst).head?))) := by
  refine ⟨fun _ _ _ _ => rfl, ?_, ?_, ?_⟩
  · intro md5pre uid
    unfold hashUserId
    constructor
    · positivity
    · rw [div_le_one (by norm_num)]
      have hb : (md5pre uid : Nat) < 2 ^ 32 := (md5pre uid).isLt
      have : ((md5pre uid : Nat) : Rat) < ((2 ^ 32 : Nat) : Rat) := by
        exact_mod_cast hb
      norm_num at this ⊢
      linarith
  · intro hash split t
    have h := walkSplit_some_iff hash split 0 t
    simpa using h
  · intro tm md5pre id uid exp hreg
    constructor
    · intro t hwalk
      unfold getTemplateForExperiment
      rw [hreg]
      dsimp only
      rw [hwalk]
    · intro hwalk
      unfold getTemplateForExperiment
      rw [hreg]
      dsimp only
      rw [hwalk]

/-- Witness for C9: in an experiment with split A: 0.5, B: 0.5 and a
digest prefix of 0 (hash 0), the walk assigns the first variant A — via
the first-match characterization — and the full call returns A. -/
theorem experiment_assignment_C9_witness :
    walkSplit 0 0 [("A", (1 : Rat)/2), ("B", 1/2)] = some "A" ∧
    getTemplateForExperiment
      ⟨[("e", ⟨["A", "B"], [("A", 1/2), ("B", 1/2)], [], 3⟩)]⟩
      (fun _ => ⟨0, by norm_num⟩) "e" "u" = .ok (some "A") := by
  have hwalk : walkSplit 0 0 [("A", (1 : Rat)/2), ("B", 1/2)] =
      some "A" := by
    apply (experiment_assignment_C9.2.2.1 0
      [("A", (1 : Rat)/2), ("B", 1/2)] "A").2
    refine ⟨0, by norm_num, rfl, ?_, fun j hj => by omega⟩
    rw [cumAt_cons_zero]
    norm_num
  refine ⟨hwalk, ?_⟩
  have hhash : hashUserId (fun _ => (⟨0, by norm_num⟩ : Fin (2 ^ 32)))
      "u" = 0 := by
    unfold hashUserId
    norm_num
  have := (experiment_assignment_C9.2.2.2
    ⟨[("e", ⟨["A", "B"], [("A", 1/2), ("B", 1/2)], [], 3⟩)]⟩
    (fun _ => ⟨0, by norm_num⟩) "e" "u"
    ⟨["A", "B"], [("A", 1/2), ("B", 1/2)], [], 3⟩ (by rfl)).1 "A"
  apply this
  rw [hhash]
  exact hwalk

end Spot
